import Mathlib

/-
Verification development for the archive registry in src/library.js.

The registry is a JavaScript class with four pieces of mutable state: the
persisted index (node-persist storage, keyed by URL), the in-memory handle
cache `this.archives` (a Map keyed by canonical address), the usage map
`this.archiveUsage`, and the engine instance `this.node` whose internal
table `node.dats` the registry consults in `close`.  The embedding models
this state as an explicit record `LibState` threaded through every
operation.  External collaborators (name resolution from ./dns, the
distributed archive engine from dat2-api, the dat-archive wrapper) are
modelled as an environment `Env` of pure oracles, following the interface
contracts the spec gives for them, since their code is not part of this
repository.  Asynchronous methods become pure state-passing functions; a
thrown error becomes an `Except.error` result paired with the state at the
throw point.
-/

namespace DatLib

/-- Keys of the in-memory JavaScript Map objects.  JavaScript Map keys are
arbitrary values; the registry normally uses canonical-address strings, but
one code path stores a handle under the JavaScript value undefined, so the
key type carries a distinguished undefined element. -/
inductive JKey where
  | undef : JKey
  | str : String → JKey
deriving DecidableEq, Repr

/-- Values occurring in a persisted-index record, viewed as JavaScript
values: strings, booleans and null. -/
inductive JVal where
  | str : String → JVal
  | bool : Bool → JVal
  | null : JVal
deriving DecidableEq, Repr

/-- Nullable string fields (title, description) as a JavaScript value. -/
def jnullable : Option String → JVal
  | none => JVal.null
  | some s => JVal.str s

/-- Lookup in an association list, mirroring Map.get / storage.getItem. -/
def alookup {α β : Type} [DecidableEq α] : List (α × β) → α → Option β
  | [], _ => none
  | p :: t, k => if p.1 = k then some p.2 else alookup t k

/-- Insert-or-replace in an association list, mirroring Map.set and the
upsert semantics of storage.setItem (last writer wins). -/
def aset {α β : Type} [DecidableEq α] : List (α × β) → α → β → List (α × β)
  | [], k, v => [(k, v)]
  | p :: t, k, v => if p.1 = k then (k, v) :: t else p :: aset t k v

/-- Deletion from an association list, mirroring Map.delete and
storage.removeItem (idempotent, no error when the key is absent). -/
def aremove {α β : Type} [DecidableEq α] : List (α × β) → α → List (α × β)
  | [], _ => []
  | p :: t, k => if p.1 = k then aremove t k else p :: aremove t k

/-- Metadata returned by archive.getInfo from the dat-archive collaborator:
fields key, url, title, description, isOwner, as destructured at
library.js line 171. -/
structure ArchiveInfo where
  key : String
  url : String
  title : Option String
  description : Option String
  isOwner : Bool
deriving DecidableEq, Repr

/-- Modelled from the spec: a dat produced by the Distributed Archive
Engine (node.getDat), which is not part of this repository.  It carries an
identity, the writability flag of its drive, and the url and metadata of
the archive it wraps.  A value of this type stands for a dat whose ready
promise has resolved. -/
structure Dat where
  id : Nat
  writable : Bool
  url : String
  info : ArchiveInfo
deriving DecidableEq, Repr

/-- An archive handle as produced by the dat-archive wrapper. -/
structure Handle where
  id : Nat
  url : String
  info : ArchiveInfo
deriving DecidableEq, Repr

/-- Models createDatArchive(dat.drive) from the external dat-archive
package: wraps the drive of a dat in an archive handle; url and metadata
are those of the underlying archive. -/
def createDatArchive (d : Dat) : Handle := ⟨d.id, d.url, d.info⟩

/-- A record of the persisted index, with the exact fields written by
updateLibraryEntry at library.js lines 172 to 178: dir, url, owner, title,
description. -/
structure LibRecord where
  dir : String
  url : String
  owner : Bool
  title : Option String
  description : Option String
deriving DecidableEq, Repr

/-- The JavaScript object shape of a persisted record: the field names and
values of the object literal passed to storage.setItem at library.js lines
172 to 178, in source order. -/
def LibRecord.toObject (r : LibRecord) : List (String × JVal) :=
  [("dir", JVal.str r.dir),
   ("url", JVal.str r.url),
   ("owner", JVal.bool r.owner),
   ("title", jnullable r.title),
   ("description", jnullable r.description)]

/-- Modelled from the spec: the record shape the spec states for the
persisted index, directory then url then owner then title then
description.  Used only to compare the spec wording against the shape the
code writes. -/
def specRecordFieldNames : List String :=
  ["directory", "url", "owner", "title", "description"]

/-- Errors thrown by registry operations: the explicit Error at
library.js line 103, a rejected name resolution, and a failed engine
open or readiness wait. -/
inductive LibError where
  | notInLibrary
  | resolveFailed
  | openFailed
deriving DecidableEq, Repr

/-- The environment of external collaborators.  resolveName models
dns.resolveName from ./dns (not under src; modelled from the spec: resolution
maps a name or protocol URL to the canonical address and fails when the
name cannot be resolved).  freshDat models a successful engine open plus
readiness wait for an address the engine does not already hold; none
models a rejected open or ready promise.  readdir models
fs.readdir(this.datDir), the on-disk candidate scan. -/
structure Env where
  resolveName : String → Option String
  freshDat : String → Option Dat
  readdir : List String

/-- The mutable state of one Library instance together with the engine
table it consults: libraryDir from the constructor, the persisted index
(storage), this.archives, this.archiveUsage, node.dats, plus two histories
that record interactions with the engine: the ids of dats on which close()
was called, and the addresses for which an engine construction was
started (one entry per open call issued to the engine). -/
structure LibState where
  libraryDir : String
  index : List (String × LibRecord)
  archives : List (JKey × Handle)
  archiveUsage : List (JKey × Nat)
  dats : List (String × Dat)
  closedDats : List Nat
  opens : List String
deriving DecidableEq, Repr

/-- State after the constructor runs on a given library directory with a
given persisted store on disk: the in-memory maps start empty
(library.js lines 34 to 35) and the engine holds no dats yet. -/
def newLibrary (libraryDir : String) (persisted : List (String × LibRecord)) : LibState :=
  ⟨libraryDir, persisted, [], [], [], [], []⟩

/-- Models await this.node.getDat(address, datOpts) followed by
await dat.ready.  The engine keeps its own table node.dats: a call for an
address already in the table returns the held dat; otherwise the engine
starts a construction (recorded in opens) which either yields a ready dat,
stored in the table, or fails. -/
def nodeGetDat (env : Env) (s : LibState) (address : String) : Option Dat × LibState :=
  match alookup s.dats address with
  | some d => (some d, s)
  | none =>
    match env.freshDat address with
    | none => (none, { s with opens := s.opens ++ [address] })
    | some d => (some d, { s with opens := s.opens ++ [address],
                                  dats := aset s.dats address d })

/-- Models listLibrary (library.js lines 93 to 96): awaits readiness and
returns storage.values(). -/
def listLibrary (s : LibState) : List LibRecord := s.index.map (·.2)

/-- Models getOpenArchives (library.js lines 120 to 126): for every entry
of this.archives, the key, the url of the handle, and the usage-map value
for the key, which is the JavaScript value undefined (here none) when the
key is absent from this.archiveUsage. -/
structure OpenInfo where
  host : JKey
  url : String
  lastUsed : Option Nat
deriving DecidableEq, Repr

def getOpenArchives (s : LibState) : List OpenInfo :=
  s.archives.map fun e => ⟨e.1, e.2.url, alookup s.archiveUsage e.1⟩

/-- Models the record built by updateLibraryEntry (library.js lines 169 to
180) from the getInfo metadata: dir is libraryDir/dat1/key/, the remaining
fields are copied from the info object. -/
def mkLibraryRecord (libraryDir : String) (info : ArchiveInfo) : LibRecord :=
  { dir := libraryDir ++ "/dat1/" ++ info.key ++ "/"
  , url := info.url
  , owner := info.isOwner
  , title := info.title
  , description := info.description }

/-- Models updateLibraryEntry (library.js lines 169 to 180):
storage.setItem(archive.url, record).  In the source the write runs
fire-and-forget inside getInfo().then; the model takes the state once that
detached write has settled. -/
def updateLibraryEntry (s : LibState) (archive : Handle) : LibState :=
  { s with index := aset s.index archive.url (mkLibraryRecord s.libraryDir archive.info) }

/-- Models createTempArchive (library.js lines 135 to 141): ensure the
cache directory (filesystem only, no modelled state), open the dat, await
readiness, wrap the drive in a handle. -/
def createTempArchive (env : Env) (s : LibState) (address : String) :
    Option Handle × LibState :=
  match nodeGetDat env s address with
  | (none, s1) => (none, s1)
  | (some d, s1) => (some (createDatArchive d), s1)

/-- Models getArchive (library.js lines 143 to 150): resolve the url to a
host address; on a cache miss construct a temporary handle and store it
under the host; set the usage timestamp to the current time; return the
cached handle.  The clock value of Date.now() is passed in as now.  A
resolution failure or a failed construction propagates as an error thrown
before the usage update. -/
def getArchive (env : Env) (s : LibState) (url : String) (now : Nat) :
    Except LibError Handle × LibState :=
  match env.resolveName url with
  | none => (Except.error LibError.resolveFailed, s)
  | some host =>
    match alookup s.archives (JKey.str host) with
    | some a =>
      (Except.ok a, { s with archiveUsage := aset s.archiveUsage (JKey.str host) now })
    | none =>
      match createTempArchive env s host with
      | (none, s1) => (Except.error LibError.openFailed, s1)
      | (some a, s1) =>
        let s2 := { s1 with archives := aset s1.archives (JKey.str host) a }
        (Except.ok a,
         { s2 with archiveUsage := aset s2.archiveUsage (JKey.str host) now })

/-- Models close (library.js lines 111 to 118): resolve the url; if
node.dats holds a dat for the host, call close() on it; then delete the
host from this.archives and this.archiveUsage.  A resolution failure
propagates before any mutation. -/
def close (env : Env) (s : LibState) (url : String) :
    Except LibError Unit × LibState :=
  match env.resolveName url with
  | none => (Except.error LibError.resolveFailed, s)
  | some host =>
    let s1 := match alookup s.dats host with
      | some d => { s with closedDats := s.closedDats ++ [d.id] }
      | none => s
    (Except.ok (),
     { s1 with archives := aremove s1.archives (JKey.str host),
               archiveUsage := aremove s1.archiveUsage (JKey.str host) })

/-- Models remove (library.js lines 98 to 109): read the record; when it
is absent throw the not-in-library error before any mutation; otherwise
close the url, delete the index entry, and return the record that was
read. -/
def remove (env : Env) (s : LibState) (url : String) :
    Except LibError LibRecord × LibState :=
  match alookup s.index url with
  | none => (Except.error LibError.notInLibrary, s)
  | some rec =>
    match close env s url with
    | (Except.error e, s1) => (Except.error e, s1)
    | (Except.ok _, s1) => (Except.ok rec, { s1 with index := aremove s1.index url })

/-- Models the JavaScript expression const open-brace host close-brace =
await dns.resolveName(archive.url) at library.js line 154: destructuring
reads the property named host out of the resolution result.  Resolution
yields the canonical address, a string (under the alternative spec reading
it yields a pair of address and url); neither value owns a property named
host, so the destructured binding is the JavaScript value undefined
whatever the resolved address is. -/
def hostDestructured (_resolvedAddress : String) : JKey := JKey.undef

/-- Models createArchive (library.js lines 152 to 159): the engine creates
a fresh archive (the resulting handle is passed in as newArchive), the url
of the new archive is resolved, the handle is stored in this.archives
under the destructured host binding, the metadata is captured into the
persisted index, and the url of the new archive is returned. -/
def createArchive (env : Env) (s : LibState) (newArchive : Handle) :
    Except LibError String × LibState :=
  match env.resolveName newArchive.url with
  | none => (Except.error LibError.resolveFailed, s)
  | some resolved =>
    let s1 := { s with archives := aset s.archives (hostDestructured resolved) newArchive }
    let s2 := updateLibraryEntry s1 newArchive
    (Except.ok newArchive.url, s2)

/-- Models forkArchive (library.js lines 161 to 167): resolve the source
url, open the source dat, ask the engine to fork it (the resulting handle
is passed in as dstArchive), capture its metadata into the persisted
index, and return the url of the fork.  Note the source does not insert
the fork into this.archives. -/
def forkArchive (env : Env) (s : LibState) (srcArchiveUrl : String) (dstArchive : Handle) :
    Except LibError String × LibState :=
  match env.resolveName srcArchiveUrl with
  | none => (Except.error LibError.resolveFailed, s)
  | some srcAddress =>
    match nodeGetDat env s srcAddress with
    | (none, s1) => (Except.error LibError.openFailed, s1)
    | (some _, s1) =>
      let s2 := updateLibraryEntry s1 dstArchive
      (Except.ok dstArchive.url, s2)

/-- Models one iteration of the ownership scan (library.js lines 58 to
71): open the candidate address; on success, if the drive is writable,
capture metadata and store the handle under the address; otherwise close
the dat; any failure is caught and swallowed. -/
def scanStep (env : Env) (s : LibState) (address : String) : LibState :=
  match nodeGetDat env s address with
  | (none, s1) => s1
  | (some dat, s1) =>
    match dat.writable with
    | true =>
      let archive := createDatArchive dat
      let s2 := updateLibraryEntry s1 archive
      { s2 with archives := aset s2.archives (JKey.str address) archive }
    | false =>
      { s1 with closedDats := s1.closedDats ++ [dat.id] }

/-- Models the ownership scan over fs.readdir(this.datDir) (library.js
lines 55 to 72), run when the loaded library is empty. -/
def checkOwned (env : Env) (s : LibState) : LibState :=
  env.readdir.foldl (scanStep env) s

/-- Models one iteration of the startup load (library.js lines 75 to 86)
for one record of the loaded library: resolve the url field of the record;
open the dat; on success store the wrapped handle under the address; on
any failure remove the record, by its url field, from the persisted
index. -/
def loadStep (env : Env) (s : LibState) (r : LibRecord) : LibState :=
  match env.resolveName r.url with
  | none => { s with index := aremove s.index r.url }
  | some address =>
    match nodeGetDat env s address with
    | (none, s1) => { s1 with index := aremove s1.index r.url }
    | (some d, s1) =>
      { s1 with archives := aset s1.archives (JKey.str address) (createDatArchive d) }

/-- Models init (library.js lines 46 to 91) after the directory creation
and migration steps, which touch no modelled state: load the library
snapshot; when it is empty run the ownership scan; then run the startup
load over the snapshot taken before the scan. -/
def init (env : Env) (s : LibState) : LibState :=
  let library := listLibrary s
  let s1 := if library.isEmpty then checkOwned env s else s
  library.foldl (loadStep env) s1

/-- Models two concurrent getArchive(url) calls, A and B, under the
interleaving in which both calls resolve the name and run the cache
membership check of library.js line 145 before either construction
completes.  The check and the insertion at line 146 are separated by the
await on createTempArchive, so when both checks miss, each call issues its
own engine construction; A completes first, inserts and stamps t1, then B
completes, inserts and stamps t2, and each call returns the handle it
looked up after its own insertion.  When the address is already cached
both calls hit and no construction is issued. -/
def getArchiveRacingPair (env : Env) (s : LibState) (url : String) (t1 t2 : Nat) :
    Except LibError (Handle × Handle) × LibState :=
  match env.resolveName url with
  | none => (Except.error LibError.resolveFailed, s)
  | some host =>
    match alookup s.archives (JKey.str host) with
    | some a =>
      (Except.ok (a, a),
       { s with archiveUsage := aset (aset s.archiveUsage (JKey.str host) t1) (JKey.str host) t2 })
    | none =>
      let s0 := { s with opens := s.opens ++ [host, host] }
      match env.freshDat host with
      | none => (Except.error LibError.openFailed, s0)
      | some d =>
        let a := createDatArchive d
        (Except.ok (a, a),
         { s0 with dats := aset s0.dats host d,
                   archives := aset (aset s0.archives (JKey.str host) a) (JKey.str host) a,
                   archiveUsage :=
                     aset (aset s0.archiveUsage (JKey.str host) t1) (JKey.str host) t2 })

/-- The allow-list constant DAT_PRESERVED_FIELDS_ON_FORK at library.js
lines 10 to 14.  Note the source never references it again: the fork
behaviour itself lives in the external dat-archive package. -/
def DAT_PRESERVED_FIELDS_ON_FORK : List String :=
  ["web_root", "fallback_page", "links"]

/-- Classification of a JavaScript value by its runtime type. -/
inductive JKind where
  | string
  | boolean
  | nullv
deriving DecidableEq, Repr

def JVal.kind : JVal → JKind
  | JVal.str _ => JKind.string
  | JVal.bool _ => JKind.boolean
  | JVal.null => JKind.nullv

def JVal.isStrOrNull : JVal → Bool
  | JVal.str _ => true
  | JVal.null => true
  | JVal.bool _ => false

theorem alookup_aset_self {α β : Type} [DecidableEq α] (l : List (α × β)) (k : α) (v : β) :
    alookup (aset l k v) k = some v := by
  induction l with
  | nil => simp [aset, alookup]
  | cons p t ih =>
    obtain ⟨a, b⟩ := p
    by_cases hp : a = k
    · subst hp
      simp [aset, alookup]
    · simp [aset, alookup, hp, ih]

theorem alookup_aset_ne {α β : Type} [DecidableEq α] (l : List (α × β)) (k k' : α) (v : β)
    (h : k' ≠ k) : alookup (aset l k v) k' = alookup l k' := by
  induction l with
  | nil => simp [aset, alookup, Ne.symm h]
  | cons p t ih =>
    obtain ⟨a, b⟩ := p
    by_cases hp : a = k
    · subst hp
      simp [aset, alookup, Ne.symm h]
    · by_cases ha : a = k'
      · simp [aset, alookup, hp, ha, h]
      · simp [aset, alookup, hp, ha, ih]

theorem alookup_aremove_self {α β : Type} [DecidableEq α] (l : List (α × β)) (k : α) :
    alookup (aremove l k) k = none := by
  induction l with
  | nil => simp [aremove, alookup]
  | cons p t ih =>
    obtain ⟨a, b⟩ := p
    by_cases hp : a = k
    · simp [aremove, hp, ih]
    · simp [aremove, alookup, hp, ih]

theorem alookup_aremove_ne {α β : Type} [DecidableEq α] (l : List (α × β)) (k k' : α)
    (h : k' ≠ k) : alookup (aremove l k) k' = alookup l k' := by
  induction l with
  | nil => simp [aremove]
  | cons p t ih =>
    obtain ⟨a, b⟩ := p
    by_cases hp : a = k
    · subst hp
      simp [aremove, alookup, Ne.symm h, ih]
    · simp [aremove, alookup, hp, ih]

theorem alookup_aremove_none {α β : Type} [DecidableEq α] (l : List (α × β)) (k k' : α)
    (h : alookup l k' = none) : alookup (aremove l k) k' = none := by
  by_cases hk : k' = k
  · subst hk
    exact alookup_aremove_self l k'
  · rw [alookup_aremove_ne l k k' hk]
    exact h

theorem alookup_none_iff {α β : Type} [DecidableEq α] (l : List (α × β)) (k : α) :
    alookup l k = none ↔ ∀ p ∈ l, p.1 ≠ k := by
  induction l with
  | nil => simp [alookup]
  | cons p t ih =>
    obtain ⟨a, b⟩ := p
    by_cases hp : a = k
    · simp [alookup, hp]
    · simp [alookup, hp, ih]

/-- Invariant preservation along a left fold. -/
theorem foldl_invariant {σ α : Type} (f : σ → α → σ) (P : σ → Prop) :
    ∀ (xs : List α) (s : σ), P s → (∀ t x, x ∈ xs → P t → P (f t x)) →
      P (xs.foldl f s)
  | [], _, h, _ => h
  | x :: xt, s, h, step =>
    foldl_invariant f P xt (f s x) (step s x (List.mem_cons_self x xt) h)
      (fun t y hy ht => step t y (List.mem_cons_of_mem x hy) ht)

/-- Consistency of the engine table with the engine oracle: every dat the
engine holds for an address is the one a fresh construction for that
address yields.  It holds for an empty table and is preserved by every
registry operation, since the table only ever receives freshDat
results. -/
def DatsConsistent (env : Env) (s : LibState) : Prop :=
  ∀ k d, alookup s.dats k = some d → env.freshDat k = some d

theorem datsConsistent_of_nil (env : Env) (s : LibState) (h : s.dats = []) :
    DatsConsistent env s := by
  intro k d hk
  rw [h] at hk
  simp [alookup] at hk

theorem nodeGetDat_eq_some (env : Env) (s : LibState) (a : String) (d : Dat)
    (s1 : LibState) (hc : DatsConsistent env s)
    (h : nodeGetDat env s a = (some d, s1)) :
    env.freshDat a = some d ∧ DatsConsistent env s1 ∧ s1.libraryDir = s.libraryDir
    ∧ s1.index = s.index ∧ s1.archives = s.archives
    ∧ s1.archiveUsage = s.archiveUsage ∧ s1.closedDats = s.closedDats := by
  unfold nodeGetDat at h
  cases halk : alookup s.dats a with
  | some d0 =>
    rw [halk] at h
    injection h with hd hs
    injection hd with hdd
    subst hdd
    subst hs
    exact ⟨hc a d0 halk, hc, rfl, rfl, rfl, rfl, rfl⟩
  | none =>
    rw [halk] at h
    cases hf : env.freshDat a with
    | none => rw [hf] at h; simp at h
    | some d0 =>
      rw [hf] at h
      injection h with hd hs
      injection hd with hdd
      subst hdd
      subst hs
      refine ⟨rfl, ?_, rfl, rfl, rfl, rfl, rfl⟩
      intro k dk hk
      by_cases hka : k = a
      · subst hka
        rw [alookup_aset_self] at hk
        injection hk with hkk
        subst hkk
        exact hf
      · rw [alookup_aset_ne _ _ _ _ hka] at hk
        exact hc k dk hk

theorem nodeGetDat_eq_none (env : Env) (s : LibState) (a : String) (s1 : LibState)
    (h : nodeGetDat env s a = (none, s1)) :
    env.freshDat a = none ∧ s1 = { s with opens := s.opens ++ [a] } := by
  unfold nodeGetDat at h
  cases halk : alookup s.dats a with
  | some d0 => rw [halk] at h; simp at h
  | none =>
    rw [halk] at h
    cases hf : env.freshDat a with
    | none =>
      rw [hf] at h
      injection h with hd hs
      exact ⟨rfl, hs.symm⟩
    | some d0 => rw [hf] at h; simp at h

/-- Fields nodeGetDat never touches, with no consistency assumption. -/
theorem nodeGetDat_fields (env : Env) (s : LibState) (a : String) :
    (nodeGetDat env s a).2.libraryDir = s.libraryDir
    ∧ (nodeGetDat env s a).2.index = s.index
    ∧ (nodeGetDat env s a).2.archives = s.archives
    ∧ (nodeGetDat env s a).2.archiveUsage = s.archiveUsage
    ∧ (nodeGetDat env s a).2.closedDats = s.closedDats := by
  unfold nodeGetDat
  cases halk : alookup s.dats a with
  | some d => simp
  | none =>
    cases hf : env.freshDat a with
    | none => simp
    | some d => simp

theorem getOpenArchives_host (s : LibState) (e : OpenInfo) (he : e ∈ getOpenArchives s) :
    ∃ p ∈ s.archives, e.host = p.1 ∧ e.lastUsed = alookup s.archiveUsage p.1 := by
  unfold getOpenArchives at he
  obtain ⟨p, hp, rfl⟩ := List.mem_map.mp he
  exact ⟨p, hp, rfl, rfl⟩

/-- Claim C4: close is idempotent.  For every URL whose resolution
succeeds, after close the resolved canonical address is absent from the
handle cache and from the usage map, so getOpenArchives no longer lists
that address, whether or not a live handle existed beforehand; and when
the engine held an open dat for the address, close was called on that
dat. -/
theorem close_idempotent_evicts (env : Env) (s : LibState) (u a : String)
    (hres : env.resolveName u = some a) :
    ∃ s1, close env s u = (Except.ok (), s1)
      ∧ alookup s1.archives (JKey.str a) = none
      ∧ alookup s1.archiveUsage (JKey.str a) = none
      ∧ (∀ e ∈ getOpenArchives s1, e.host ≠ JKey.str a)
      ∧ (∀ d, alookup s.dats a = some d → d.id ∈ s1.closedDats) := by
  unfold close
  simp only [hres]
  cases hd : alookup s.dats a with
  | none =>
    refine ⟨{ s with archives := aremove s.archives (JKey.str a),
                     archiveUsage := aremove s.archiveUsage (JKey.str a) },
            rfl, alookup_aremove_self _ _, alookup_aremove_self _ _, ?_, ?_⟩
    · intro e he
      obtain ⟨p, hp, hhost, -⟩ := getOpenArchives_host _ e he
      have hnone : alookup (aremove s.archives (JKey.str a)) (JKey.str a) = none :=
        alookup_aremove_self _ _
      have := (alookup_none_iff _ _).mp hnone p hp
      rw [hhost]
      exact this
    · intro d hdd
      exact Option.noConfusion hdd
  | some d =>
    refine ⟨{ s with closedDats := s.closedDats ++ [d.id],
                     archives := aremove s.archives (JKey.str a),
                     archiveUsage := aremove s.archiveUsage (JKey.str a) },
            rfl, alookup_aremove_self _ _, alookup_aremove_self _ _, ?_, ?_⟩
    · intro e he
      obtain ⟨p, hp, hhost, -⟩ := getOpenArchives_host _ e he
      have hnone : alookup (aremove s.archives (JKey.str a)) (JKey.str a) = none :=
        alookup_aremove_self _ _
      have := (alookup_none_iff _ _).mp hnone p hp
      rw [hhost]
      exact this
    · intro d' hdd
      injection hdd with hdd'
      subst hdd'
      simp

/-- Claim C1: remove on a URL absent from the persisted index fails with
the not-in-library error and leaves the whole state, in particular the
persisted index, unchanged; remove on a present URL (whose resolution
succeeds, since remove closes the handle at its canonical address and the
spec has resolution failures propagate) deletes the index entry, calls
close on the engine dat for the canonical address when one is held,
evicts the address from the handle cache and the usage map, and returns
the record that was removed. -/
theorem remove_contract (env : Env) (s : LibState) (u : String) :
    (alookup s.index u = none →
      remove env s u = (Except.error LibError.notInLibrary, s))
    ∧ (∀ rec a, alookup s.index u = some rec → env.resolveName u = some a →
        ∃ s1, remove env s u = (Except.ok rec, s1)
          ∧ alookup s1.index u = none
          ∧ alookup s1.archives (JKey.str a) = none
          ∧ alookup s1.archiveUsage (JKey.str a) = none
          ∧ (∀ d, alookup s.dats a = some d → d.id ∈ s1.closedDats)) := by
  constructor
  · intro h
    unfold remove
    simp only [h]
  · intro rec a hrec hres
    unfold remove
    simp only [hrec]
    unfold close
    simp only [hres]
    cases hd : alookup s.dats a with
    | none =>
      refine ⟨{ s with archives := aremove s.archives (JKey.str a),
                       archiveUsage := aremove s.archiveUsage (JKey.str a),
                       index := aremove s.index u },
              rfl, alookup_aremove_self _ _, alookup_aremove_self _ _,
              alookup_aremove_self _ _, ?_⟩
      intro d hdd
      exact Option.noConfusion hdd
    | some d =>
      refine ⟨{ s with closedDats := s.closedDats ++ [d.id],
                       archives := aremove s.archives (JKey.str a),
                       archiveUsage := aremove s.archiveUsage (JKey.str a),
                       index := aremove s.index u },
              rfl, alookup_aremove_self _ _, alookup_aremove_self _ _,
              alookup_aremove_self _ _, ?_⟩
      intro d' hdd
      injection hdd with hdd'
      subst hdd'
      simp

/-- Claim C3: two sequential getArchive calls for the same URL, resolving
to the same canonical address, return the same handle both times; the
usage timestamp for the address is updated to the clock value on each
call, whether the handle was cached or newly constructed, so the second
recorded timestamp is greater or equal whenever the clock is monotone;
and the second call issues no engine construction and leaves the handle
cache unchanged. -/
theorem getArchive_sequential (env : Env) (s0 s1 : LibState) (u a : String)
    (t1 t2 : Nat) (h1 : Handle)
    (hres : env.resolveName u = some a) (ht : t1 ≤ t2)
    (hcall : getArchive env s0 u t1 = (Except.ok h1, s1)) :
    ∃ s2, getArchive env s1 u t2 = (Except.ok h1, s2)
      ∧ alookup s1.archiveUsage (JKey.str a) = some t1
      ∧ alookup s2.archiveUsage (JKey.str a) = some t2
      ∧ t1 ≤ t2
      ∧ s2.opens = s1.opens ∧ s2.archives = s1.archives := by
  unfold getArchive at hcall
  simp only [hres] at hcall
  cases h0 : alookup s0.archives (JKey.str a) with
  | some a0 =>
    simp only [h0] at hcall
    injection hcall with he hs
    injection he with he'
    subst he'
    subst hs
    refine ⟨{ s0 with
        archiveUsage := aset (aset s0.archiveUsage (JKey.str a) t1) (JKey.str a) t2 },
      ?_, alookup_aset_self _ _ _, alookup_aset_self _ _ _, ht, rfl, rfl⟩
    unfold getArchive
    simp only [hres, h0]
  | none =>
    simp only [h0] at hcall
    cases hct : createTempArchive env s0 a with
    | mk r s' =>
      cases r with
      | none =>
        simp only [hct] at hcall
        injection hcall with he hs
        injection he
      | some aH =>
        simp only [hct] at hcall
        injection hcall with he hs
        injection he with he'
        subst he'
        subst hs
        refine ⟨{ s' with
            archives := aset s'.archives (JKey.str a) aH,
            archiveUsage := aset (aset s'.archiveUsage (JKey.str a) t1) (JKey.str a) t2 },
          ?_, alookup_aset_self _ _ _, alookup_aset_self _ _ _, ht, rfl, rfl⟩
        unfold getArchive
        simp only [hres, alookup_aset_self]

/-- Sample metadata, dat, handle, record and environment used by the
witness theorems. -/
def wInfo1 : ArchiveInfo := ⟨"k1", "dat://k1", some "t1", none, true⟩

def wDat1 : Dat := ⟨1, true, "dat://k1", wInfo1⟩

def wRec1 : LibRecord := mkLibraryRecord "L" wInfo1

def wEnv : Env :=
  { resolveName := fun u => if u = "dat://k1" then some "k1" else none
  , freshDat := fun x => if x = "k1" then some wDat1 else none
  , readdir := [] }

def wState1 : LibState :=
  { libraryDir := "L"
  , index := [("dat://k1", wRec1)]
  , archives := [(JKey.str "k1", createDatArchive wDat1)]
  , archiveUsage := []
  , dats := [("k1", wDat1)]
  , closedDats := []
  , opens := [] }

theorem close_idempotent_evicts_witness :
    ∃ s1, close wEnv wState1 "dat://k1" = (Except.ok (), s1)
      ∧ alookup s1.archives (JKey.str "k1") = none
      ∧ alookup s1.archiveUsage (JKey.str "k1") = none
      ∧ (∀ e ∈ getOpenArchives s1, e.host ≠ JKey.str "k1")
      ∧ (∀ d, alookup wState1.dats "k1" = some d → d.id ∈ s1.closedDats) :=
  close_idempotent_evicts wEnv wState1 "dat://k1" "k1" (by decide)

theorem remove_contract_witness :
    remove wEnv wState1 "dat://absent" = (Except.error LibError.notInLibrary, wState1)
    ∧ ∃ s1, remove wEnv wState1 "dat://k1" = (Except.ok wRec1, s1)
        ∧ alookup s1.index "dat://k1" = none
        ∧ alookup s1.archives (JKey.str "k1") = none
        ∧ alookup s1.archiveUsage (JKey.str "k1") = none
        ∧ (∀ d, alookup wState1.dats "k1" = some d → d.id ∈ s1.closedDats) :=
  ⟨(remove_contract wEnv wState1 "dat://absent").1 (by decide),
   (remove_contract wEnv wState1 "dat://k1").2 wRec1 "k1" (by decide) (by decide)⟩

/-- State after a first getArchive call for dat://k1 at clock value 3 on a
fresh library. -/
def wS3 : LibState :=
  { libraryDir := "L"
  , index := []
  , archives := [(JKey.str "k1", createDatArchive wDat1)]
  , archiveUsage := [(JKey.str "k1", 3)]
  , dats := [("k1", wDat1)]
  , closedDats := []
  , opens := ["k1"] }

theorem getArchive_sequential_witness :
    ∃ s2, getArchive wEnv wS3 "dat://k1" 5 = (Except.ok (createDatArchive wDat1), s2)
      ∧ alookup wS3.archiveUsage (JKey.str "k1") = some 3
      ∧ alookup s2.archiveUsage (JKey.str "k1") = some 5
      ∧ 3 ≤ 5
      ∧ s2.opens = wS3.opens ∧ s2.archives = wS3.archives :=
  getArchive_sequential wEnv (newLibrary "L" []) wS3 "dat://k1" "k1" 3 5
    (createDatArchive wDat1) (by decide) (by decide) rfl


theorem loadStep_dir_usage (env : Env) (s : LibState) (r : LibRecord) :
    (loadStep env s r).libraryDir = s.libraryDir
    ∧ (loadStep env s r).archiveUsage = s.archiveUsage := by
  unfold loadStep
  cases hr : env.resolveName r.url with
  | none => exact ⟨rfl, rfl⟩
  | some a =>
    dsimp only
    cases hng : nodeGetDat env s a with
    | mk rr s1 =>
      obtain ⟨f1, f2, f3, f4, f5⟩ := nodeGetDat_fields env s a
      rw [hng] at f1 f2 f3 f4 f5
      cases rr with
      | none => exact ⟨f1, f4⟩
      | some d => exact ⟨f1, f4⟩

theorem loadStep_consistent (env : Env) (s : LibState) (r : LibRecord)
    (hc : DatsConsistent env s) : DatsConsistent env (loadStep env s r) := by
  unfold loadStep
  cases hr : env.resolveName r.url with
  | none => exact hc
  | some a =>
    dsimp only
    cases hng : nodeGetDat env s a with
    | mk rr s1 =>
      cases rr with
      | none =>
        obtain ⟨-, hs1⟩ := nodeGetDat_eq_none env s a s1 hng
        subst hs1
        exact hc
      | some d =>
        obtain ⟨-, hcs1, -, -, -, -, -⟩ := nodeGetDat_eq_some env s a d s1 hc hng
        exact hcs1

theorem loadStep_index_none (env : Env) (s : LibState) (r : LibRecord) (u : String)
    (h : alookup s.index u = none) :
    alookup (loadStep env s r).index u = none := by
  unfold loadStep
  cases hr : env.resolveName r.url with
  | none => exact alookup_aremove_none _ _ _ h
  | some a =>
    dsimp only
    cases hng : nodeGetDat env s a with
    | mk rr s1 =>
      obtain ⟨-, f2, -, -, -⟩ := nodeGetDat_fields env s a
      rw [hng] at f2
      have h1 : alookup s1.index u = none := by rw [f2]; exact h
      cases rr with
      | none => exact alookup_aremove_none _ _ _ h1
      | some d => exact h1

theorem loadStep_archives_keep (env : Env) (s : LibState) (r : LibRecord)
    (a : String) (d : Dat)
    (hc : DatsConsistent env s) (hf : env.freshDat a = some d)
    (h : alookup s.archives (JKey.str a) = some (createDatArchive d)) :
    alookup (loadStep env s r).archives (JKey.str a) = some (createDatArchive d) := by
  unfold loadStep
  cases hr : env.resolveName r.url with
  | none => exact h
  | some b =>
    dsimp only
    cases hng : nodeGetDat env s b with
    | mk rr s1 =>
      obtain ⟨-, -, f3, -, -⟩ := nodeGetDat_fields env s b
      rw [hng] at f3
      have h1 : alookup s1.archives (JKey.str a) = some (createDatArchive d) := by
        rw [f3]; exact h
      cases rr with
      | none => exact h1
      | some d' =>
        dsimp only
        obtain ⟨hfd', -, -, -, -, -, -⟩ := nodeGetDat_eq_some env s b d' s1 hc hng
        by_cases hba : b = a
        · subst hba
          rw [hfd'] at hf
          injection hf with hdd
          subst hdd
          exact alookup_aset_self _ _ _
        · have hne : JKey.str a ≠ JKey.str b := by
            intro hcon
            injection hcon with hcon'
            exact hba hcon'.symm
          rw [alookup_aset_ne _ _ _ _ hne]
          exact h1

theorem scanStep_consistent (env : Env) (s : LibState) (c : String)
    (hc : DatsConsistent env s) : DatsConsistent env (scanStep env s c) := by
  unfold scanStep
  cases hng : nodeGetDat env s c with
  | mk rr s1 =>
    cases rr with
    | none =>
      obtain ⟨-, hs1⟩ := nodeGetDat_eq_none env s c s1 hng
      subst hs1
      exact hc
    | some dat =>
      dsimp only
      obtain ⟨-, hcs1, -, -, -, -, -⟩ := nodeGetDat_eq_some env s c dat s1 hc hng
      cases hw : dat.writable with
      | true => exact hcs1
      | false => exact hcs1

theorem scanStep_dir_usage (env : Env) (s : LibState) (c : String) :
    (scanStep env s c).libraryDir = s.libraryDir
    ∧ (scanStep env s c).archiveUsage = s.archiveUsage := by
  unfold scanStep
  cases hng : nodeGetDat env s c with
  | mk rr s1 =>
    obtain ⟨f1, f2, f3, f4, f5⟩ := nodeGetDat_fields env s c
    rw [hng] at f1 f2 f3 f4 f5
    cases rr with
    | none => exact ⟨f1, f4⟩
    | some dat =>
      dsimp only
      cases hw : dat.writable with
      | true => exact ⟨f1, f4⟩
      | false => exact ⟨f1, f4⟩

theorem scanStep_closed_mono (env : Env) (s : LibState) (c : String) (x : Nat)
    (h : x ∈ s.closedDats) : x ∈ (scanStep env s c).closedDats := by
  unfold scanStep
  cases hng : nodeGetDat env s c with
  | mk rr s1 =>
    obtain ⟨-, -, -, -, f5⟩ := nodeGetDat_fields env s c
    rw [hng] at f5
    cases rr with
    | none => rw [f5]; exact h
    | some dat =>
      dsimp only
      cases hw : dat.writable with
      | true =>
        dsimp only [updateLibraryEntry]
        rw [f5]
        exact h
      | false =>
        dsimp only
        rw [f5]
        exact List.mem_append_left _ h

theorem scanStep_closes (env : Env) (s : LibState) (c : String) (d : Dat)
    (hc : DatsConsistent env s) (hf : env.freshDat c = some d)
    (hw : d.writable = false) : d.id ∈ (scanStep env s c).closedDats := by
  unfold scanStep
  cases hng : nodeGetDat env s c with
  | mk rr s1 =>
    cases rr with
    | none =>
      obtain ⟨hfnone, -⟩ := nodeGetDat_eq_none env s c s1 hng
      rw [hfnone] at hf
      exact Option.noConfusion hf
    | some dat =>
      dsimp only
      obtain ⟨hfd, -, -, -, -, -, -⟩ := nodeGetDat_eq_some env s c dat s1 hc hng
      rw [hfd] at hf
      injection hf with hdd
      subst hdd
      rw [hw]
      dsimp only
      simp

theorem scanStep_establish (env : Env) (s : LibState) (c : String) (d : Dat)
    (hc : DatsConsistent env s) (hf : env.freshDat c = some d)
    (hw : d.writable = true) :
    alookup (scanStep env s c).archives (JKey.str c) = some (createDatArchive d)
    ∧ alookup (scanStep env s c).index d.url
        = some (mkLibraryRecord s.libraryDir d.info) := by
  unfold scanStep
  cases hng : nodeGetDat env s c with
  | mk rr s1 =>
    cases rr with
    | none =>
      obtain ⟨hfnone, -⟩ := nodeGetDat_eq_none env s c s1 hng
      rw [hfnone] at hf
      exact Option.noConfusion hf
    | some dat =>
      dsimp only
      obtain ⟨hfd, -, f1, f2, -, -, -⟩ := nodeGetDat_eq_some env s c dat s1 hc hng
      rw [hfd] at hf
      injection hf with hdd
      subst hdd
      rw [hw]
      dsimp only
      constructor
      · exact alookup_aset_self _ _ _
      · unfold updateLibraryEntry
        dsimp only
        have hv : mkLibraryRecord s1.libraryDir (createDatArchive dat).info
            = mkLibraryRecord s.libraryDir dat.info := by
          rw [f1]
          rfl
        rw [hv]
        exact alookup_aset_self _ _ _

theorem scanStep_archives_keep (env : Env) (s : LibState) (x c : String) (d : Dat)
    (hc : DatsConsistent env s) (hf : env.freshDat c = some d)
    (h : alookup s.archives (JKey.str c) = some (createDatArchive d)) :
    alookup (scanStep env s x).archives (JKey.str c) = some (createDatArchive d) := by
  unfold scanStep
  cases hng : nodeGetDat env s x with
  | mk rr s1 =>
    obtain ⟨-, -, f3, -, -⟩ := nodeGetDat_fields env s x
    rw [hng] at f3
    have h1 : alookup s1.archives (JKey.str c) = some (createDatArchive d) := by
      rw [f3]; exact h
    cases rr with
    | none => exact h1
    | some dat =>
      dsimp only
      obtain ⟨hfd, -, -, -, -, -, -⟩ := nodeGetDat_eq_some env s x dat s1 hc hng
      cases hw : dat.writable with
      | false => exact h1
      | true =>
        dsimp only
        by_cases hxc : x = c
        · subst hxc
          rw [hfd] at hf
          injection hf with hdd
          subst hdd
          exact alookup_aset_self _ _ _
        · have hne : JKey.str c ≠ JKey.str x := by
            intro hcon
            injection hcon with hcon'
            exact hxc hcon'.symm
          rw [alookup_aset_ne _ _ _ _ hne]
          exact h1

theorem scanStep_archives_none_keep (env : Env) (s : LibState) (x c : String) (d : Dat)
    (hc : DatsConsistent env s) (hf : env.freshDat c = some d)
    (hw : d.writable = false)
    (h : alookup s.archives (JKey.str c) = none) :
    alookup (scanStep env s x).archives (JKey.str c) = none := by
  unfold scanStep
  cases hng : nodeGetDat env s x with
  | mk rr s1 =>
    obtain ⟨-, -, f3, -, -⟩ := nodeGetDat_fields env s x
    rw [hng] at f3
    have h1 : alookup s1.archives (JKey.str c) = none := by
      rw [f3]; exact h
    cases rr with
    | none => exact h1
    | some dat =>
      dsimp only
      obtain ⟨hfd, -, -, -, -, -, -⟩ := nodeGetDat_eq_some env s x dat s1 hc hng
      cases hwx : dat.writable with
      | false => exact h1
      | true =>
        dsimp only
        by_cases hxc : x = c
        · subst hxc
          rw [hfd] at hf
          injection hf with hdd
          subst hdd
          rw [hwx] at hw
          exact Bool.noConfusion hw
        · have hne : JKey.str c ≠ JKey.str x := by
            intro hcon
            injection hcon with hcon'
            exact hxc hcon'.symm
          rw [alookup_aset_ne _ _ _ _ hne]
          exact h1

theorem scanStep_index_none_keep (env : Env) (s : LibState) (x : String) (u : String)
    (hc : DatsConsistent env s)
    (hnw : ∀ d', env.freshDat x = some d' → d'.writable = true → d'.url ≠ u)
    (h : alookup s.index u = none) :
    alookup (scanStep env s x).index u = none := by
  unfold scanStep
  cases hng : nodeGetDat env s x with
  | mk rr s1 =>
    obtain ⟨-, f2, -, -, -⟩ := nodeGetDat_fields env s x
    rw [hng] at f2
    have h1 : alookup s1.index u = none := by
      rw [f2]; exact h
    cases rr with
    | none => exact h1
    | some dat =>
      dsimp only
      obtain ⟨hfd, -, -, -, -, -, -⟩ := nodeGetDat_eq_some env s x dat s1 hc hng
      cases hw : dat.writable with
      | false => exact h1
      | true =>
        dsimp only
        unfold updateLibraryEntry
        dsimp only
        have hne : u ≠ (createDatArchive dat).url := by
          intro hcon
          exact hnw dat hfd hw hcon.symm
        rw [alookup_aset_ne _ _ _ _ hne]
        exact h1

theorem scanStep_index_keep_rec (env : Env) (s : LibState) (x c : String) (d : Dat)
    (dir : String)
    (hc : DatsConsistent env s) (hf : env.freshDat c = some d)
    (hdir : s.libraryDir = dir)
    (hurl : ∀ d', env.freshDat x = some d' → d'.writable = true →
      d'.url = d.url → x = c)
    (h : alookup s.index d.url = some (mkLibraryRecord dir d.info)) :
    alookup (scanStep env s x).index d.url = some (mkLibraryRecord dir d.info) := by
  unfold scanStep
  cases hng : nodeGetDat env s x with
  | mk rr s1 =>
    obtain ⟨f1, f2, -, -, -⟩ := nodeGetDat_fields env s x
    rw [hng] at f1 f2
    have h1 : alookup s1.index d.url = some (mkLibraryRecord dir d.info) := by
      rw [f2]; exact h
    cases rr with
    | none => exact h1
    | some dat =>
      dsimp only
      obtain ⟨hfd, -, -, -, -, -, -⟩ := nodeGetDat_eq_some env s x dat s1 hc hng
      cases hw : dat.writable with
      | false => exact h1
      | true =>
        dsimp only
        unfold updateLibraryEntry
        dsimp only
        by_cases hdu : (createDatArchive dat).url = d.url
        · have hxc : x = c := hurl dat hfd hw hdu
          subst hxc
          rw [hfd] at hf
          injection hf with hdd
          subst hdd
          have hv : mkLibraryRecord s1.libraryDir (createDatArchive dat).info
              = mkLibraryRecord dir dat.info := by
            rw [f1, hdir]
            rfl
          rw [hdu, hv]
          exact alookup_aset_self _ _ _
        · rw [alookup_aset_ne _ _ _ _ (fun hcon => hdu hcon.symm)]
          exact h1

theorem scanStep_noop (env : Env) (t : LibState) (c : String)
    (hct : DatsConsistent env t) (hfc : env.freshDat c = none) :
    (scanStep env t c).libraryDir = t.libraryDir
    ∧ (scanStep env t c).index = t.index
    ∧ (scanStep env t c).archives = t.archives
    ∧ (scanStep env t c).archiveUsage = t.archiveUsage
    ∧ (scanStep env t c).dats = t.dats
    ∧ (scanStep env t c).closedDats = t.closedDats := by
  unfold scanStep
  cases hng : nodeGetDat env t c with
  | mk rr s1 =>
    cases rr with
    | none =>
      obtain ⟨-, hs1⟩ := nodeGetDat_eq_none env t c s1 hng
      subst hs1
      exact ⟨rfl, rfl, rfl, rfl, rfl, rfl⟩
    | some dat =>
      obtain ⟨hfd, -, -, -, -, -, -⟩ := nodeGetDat_eq_some env t c dat s1 hct hng
      rw [hfc] at hfd
      exact Option.noConfusion hfd

theorem loadStep_prunes (env : Env) (t : LibState) (r : LibRecord)
    (hc : DatsConsistent env t)
    (hfail : env.resolveName r.url = none ∨
      ∃ a, env.resolveName r.url = some a ∧ env.freshDat a = none) :
    alookup (loadStep env t r).index r.url = none := by
  unfold loadStep
  rcases hfail with hr | ⟨a, hra, hfa⟩
  · rw [hr]
    exact alookup_aremove_self t.index r.url
  · rw [hra]
    dsimp only
    cases hng : nodeGetDat env t a with
    | mk rr s1 =>
      cases rr with
      | none => exact alookup_aremove_self s1.index r.url
      | some d =>
        obtain ⟨hfd, -, -, -, -, -, -⟩ := nodeGetDat_eq_some env t a d s1 hc hng
        rw [hfd] at hfa
        exact Option.noConfusion hfa

theorem loadStep_loads (env : Env) (t : LibState) (r : LibRecord) (a : String) (d : Dat)
    (hc : DatsConsistent env t)
    (hra : env.resolveName r.url = some a) (hfd : env.freshDat a = some d) :
    alookup (loadStep env t r).archives (JKey.str a) = some (createDatArchive d) := by
  unfold loadStep
  rw [hra]
  dsimp only
  cases hng : nodeGetDat env t a with
  | mk rr s1 =>
    cases rr with
    | none =>
      obtain ⟨hfnone, -⟩ := nodeGetDat_eq_none env t a s1 hng
      rw [hfnone] at hfd
      exact Option.noConfusion hfd
    | some d' =>
      obtain ⟨hfd', -, -, -, -, -, -⟩ := nodeGetDat_eq_some env t a d' s1 hc hng
      rw [hfd'] at hfd
      injection hfd with hdd
      subst hdd
      exact alookup_aset_self s1.archives (JKey.str a) (createDatArchive d')

/-- Claim C2: during startup reconciliation of a non-empty index, every
record whose URL resolution or engine open fails is removed from the
persisted index (self-pruning), while every record whose resolution and
open succeed has its handle cached under the resolved address afterwards;
init is a total function, so it completes, and both conclusions hold for
each record whatever the outcome of every other record, so one failure
neither blocks nor fails the processing of the others.  The hypotheses say
that the store keys its records by their url field and that the engine
table is empty at startup. -/
theorem init_self_prunes (env : Env) (s : LibState) (u : String) (rec : LibRecord)
    (hwk : ∀ p ∈ s.index, p.1 = (p.2).url)
    (hdats : s.dats = [])
    (hmem : (u, rec) ∈ s.index) :
    ((env.resolveName rec.url = none ∨
        ∃ a, env.resolveName rec.url = some a ∧ env.freshDat a = none) →
      alookup (init env s).index u = none)
    ∧ (∀ a d, env.resolveName rec.url = some a → env.freshDat a = some d →
        alookup (init env s).archives (JKey.str a) = some (createDatArchive d)) := by
  have hne : s.index ≠ [] := by
    intro hnil
    rw [hnil] at hmem
    exact List.not_mem_nil _ hmem
  obtain ⟨pre, post, hsplit⟩ := List.append_of_mem hmem
  have hinit : init env s
      = (post.map (·.2)).foldl (loadStep env)
          (loadStep env ((pre.map (·.2)).foldl (loadStep env) s) rec) := by
    unfold init
    have hempty : (listLibrary s).isEmpty = false := by
      unfold listLibrary
      cases hs : s.index with
      | nil => exact absurd hs hne
      | cons p t => rfl
    simp only [hempty, Bool.false_eq_true, if_false]
    unfold listLibrary
    rw [hsplit, List.map_append, List.map_cons, List.foldl_append, List.foldl_cons]
  have hcMid : DatsConsistent env ((pre.map (·.2)).foldl (loadStep env) s) :=
    foldl_invariant (loadStep env) (DatsConsistent env) (pre.map (·.2)) s
      (datsConsistent_of_nil env s hdats)
      (fun t x _ ht => loadStep_consistent env t x ht)
  constructor
  · intro hfail
    have hu : u = rec.url := hwk (u, rec) hmem
    rw [hinit, hu]
    have hstep : alookup
        (loadStep env ((pre.map (·.2)).foldl (loadStep env) s) rec).index rec.url
          = none :=
      loadStep_prunes env _ rec hcMid hfail
    exact foldl_invariant (loadStep env)
      (fun t => alookup t.index rec.url = none) (post.map (·.2)) _ hstep
      (fun t x _ ht => loadStep_index_none env t x rec.url ht)
  · intro a d hra hfd
    rw [hinit]
    have hstep : alookup
        (loadStep env ((pre.map (·.2)).foldl (loadStep env) s) rec).archives
          (JKey.str a) = some (createDatArchive d)
        ∧ DatsConsistent env
            (loadStep env ((pre.map (·.2)).foldl (loadStep env) s) rec) :=
      ⟨loadStep_loads env _ rec a d hcMid hra hfd,
       loadStep_consistent env _ rec hcMid⟩
    have hpost := foldl_invariant (loadStep env)
      (fun t => alookup t.archives (JKey.str a) = some (createDatArchive d)
        ∧ DatsConsistent env t)
      (post.map (·.2)) _ hstep
      (fun t x _ ht =>
        ⟨loadStep_archives_keep env t x a d ht.2 hfd ht.1,
         loadStep_consistent env t x ht.2⟩)
    exact hpost.1

/-- Record of a URL that never resolves, used by the reconciliation
witness. -/
def wRecBad : LibRecord :=
  { dir := "LB", url := "dat://bad", owner := false, title := none, description := none }

def wStateC2 : LibState :=
  { libraryDir := "L"
  , index := [("dat://k1", wRec1), ("dat://bad", wRecBad)]
  , archives := []
  , archiveUsage := []
  , dats := []
  , closedDats := []
  , opens := [] }

theorem init_self_prunes_witness :
    alookup (init wEnv wStateC2).index "dat://bad" = none
    ∧ alookup (init wEnv wStateC2).archives (JKey.str "k1")
        = some (createDatArchive wDat1) :=
  ⟨(init_self_prunes wEnv wStateC2 "dat://bad" wRecBad (by decide) rfl
      (by decide)).1 (Or.inl (by decide)),
   (init_self_prunes wEnv wStateC2 "dat://k1" wRec1 (by decide) rfl
      (by decide)).2 "k1" wDat1 (by decide) (by decide)⟩

/-- Claim C6: the startup ownership scan, run when the persisted index is
empty.  Every candidate that opens as writable is registered into both the
persisted index and the handle cache; every candidate that opens as
non-writable has close called on its dat, leaves no handle in the cache
under its address and leaves the index empty for its url; and a candidate
whose open fails contributes a step that leaves every observable component
of the state unchanged, while the first two conclusions hold for every
candidate irrespective of such failures, so a failure on one candidate is
swallowed and does not affect the others.  The url-injectivity hypothesis
says distinct on-disk candidates carry distinct archive urls. -/
theorem init_ownership_scan (env : Env) (dir c : String)
    (hmem : c ∈ env.readdir)
    (hurl : ∀ c1, c1 ∈ env.readdir → ∀ c2, c2 ∈ env.readdir → ∀ d1 d2,
      env.freshDat c1 = some d1 → env.freshDat c2 = some d2 →
      d1.url = d2.url → c1 = c2) :
    (∀ d, env.freshDat c = some d → d.writable = true →
      alookup (init env (newLibrary dir [])).archives (JKey.str c)
          = some (createDatArchive d)
      ∧ alookup (init env (newLibrary dir [])).index d.url
          = some (mkLibraryRecord dir d.info))
    ∧ (∀ d, env.freshDat c = some d → d.writable = false →
      alookup (init env (newLibrary dir [])).archives (JKey.str c) = none
      ∧ d.id ∈ (init env (newLibrary dir [])).closedDats
      ∧ alookup (init env (newLibrary dir [])).index d.url = none)
    ∧ (env.freshDat c = none →
      ∀ t, DatsConsistent env t →
        (scanStep env t c).libraryDir = t.libraryDir
        ∧ (scanStep env t c).index = t.index
        ∧ (scanStep env t c).archives = t.archives
        ∧ (scanStep env t c).archiveUsage = t.archiveUsage
        ∧ (scanStep env t c).dats = t.dats
        ∧ (scanStep env t c).closedDats = t.closedDats) := by
  have hinit : init env (newLibrary dir []) = checkOwned env (newLibrary dir []) := rfl
  obtain ⟨pre, post, hsplit⟩ := List.append_of_mem hmem
  have hfold : init env (newLibrary dir [])
      = post.foldl (scanStep env)
          (scanStep env (pre.foldl (scanStep env) (newLibrary dir [])) c) := by
    rw [hinit]
    unfold checkOwned
    rw [hsplit, List.foldl_append, List.foldl_cons]
  have hpostsub : ∀ x ∈ post, x ∈ env.readdir := by
    intro x hx
    rw [hsplit]
    refine List.mem_append_right _ ?_
    exact List.mem_cons_of_mem _ hx
  have hpre : DatsConsistent env (pre.foldl (scanStep env) (newLibrary dir []))
      ∧ (pre.foldl (scanStep env) (newLibrary dir [])).libraryDir = dir := by
    refine foldl_invariant (scanStep env)
      (fun t => DatsConsistent env t ∧ t.libraryDir = dir) pre (newLibrary dir [])
      ⟨datsConsistent_of_nil env _ rfl, rfl⟩ ?_
    intro t x _ ht
    exact ⟨scanStep_consistent env t x ht.1,
      ((scanStep_dir_usage env t x).1).trans ht.2⟩
  refine ⟨?_, ?_, ?_⟩
  · intro d hf hw
    rw [hfold]
    have hestab := scanStep_establish env _ c d hpre.1 hf hw
    rw [hpre.2] at hestab
    have hstepc : DatsConsistent env
          (scanStep env (pre.foldl (scanStep env) (newLibrary dir [])) c)
        ∧ (scanStep env (pre.foldl (scanStep env) (newLibrary dir [])) c).libraryDir
            = dir :=
      ⟨scanStep_consistent env _ c hpre.1,
       ((scanStep_dir_usage env _ c).1).trans hpre.2⟩
    have hkeep : ∀ t x, x ∈ post →
        ((alookup t.archives (JKey.str c) = some (createDatArchive d)
            ∧ alookup t.index d.url = some (mkLibraryRecord dir d.info))
          ∧ DatsConsistent env t ∧ t.libraryDir = dir) →
        ((alookup (scanStep env t x).archives (JKey.str c)
              = some (createDatArchive d)
            ∧ alookup (scanStep env t x).index d.url
              = some (mkLibraryRecord dir d.info))
          ∧ DatsConsistent env (scanStep env t x)
          ∧ (scanStep env t x).libraryDir = dir) := by
      intro t x hx ht
      refine ⟨⟨scanStep_archives_keep env t x c d ht.2.1 hf ht.1.1, ?_⟩,
        scanStep_consistent env t x ht.2.1,
        ((scanStep_dir_usage env t x).1).trans ht.2.2⟩
      refine scanStep_index_keep_rec env t x c d dir ht.2.1 hf ht.2.2 ?_ ht.1.2
      intro d' hfx hwx hux
      exact hurl x (hpostsub x hx) c hmem d' d hfx hf hux
    have hpost := foldl_invariant (scanStep env)
      (fun t => (alookup t.archives (JKey.str c) = some (createDatArchive d)
          ∧ alookup t.index d.url = some (mkLibraryRecord dir d.info))
        ∧ DatsConsistent env t ∧ t.libraryDir = dir)
      post _ ⟨⟨hestab.1, hestab.2⟩, hstepc⟩ hkeep
    exact ⟨hpost.1.1, hpost.1.2⟩
  · intro d hf hw
    refine ⟨?_, ?_, ?_⟩
    · rw [hinit]
      unfold checkOwned
      have hall := foldl_invariant (scanStep env)
        (fun t => alookup t.archives (JKey.str c) = none ∧ DatsConsistent env t)
        env.readdir (newLibrary dir [])
        ⟨rfl, datsConsistent_of_nil env _ rfl⟩
        (fun t x _ ht =>
          ⟨scanStep_archives_none_keep env t x c d ht.2 hf hw ht.1,
           scanStep_consistent env t x ht.2⟩)
      exact hall.1
    · rw [hfold]
      have hclosed := scanStep_closes env _ c d hpre.1 hf hw
      exact foldl_invariant (scanStep env)
        (fun t => d.id ∈ t.closedDats) post _ hclosed
        (fun t x _ ht => scanStep_closed_mono env t x d.id ht)
    · rw [hinit]
      unfold checkOwned
      have hnwall : ∀ x, x ∈ env.readdir → ∀ d', env.freshDat x = some d' →
          d'.writable = true → d'.url ≠ d.url := by
        intro x hx d' hfx hwx hcon
        have hxc : x = c := hurl x hx c hmem d' d hfx hf hcon
        subst hxc
        rw [hfx] at hf
        injection hf with hdd
        subst hdd
        rw [hwx] at hw
        exact Bool.noConfusion hw
      have hall := foldl_invariant (scanStep env)
        (fun t => alookup t.index d.url = none ∧ DatsConsistent env t)
        env.readdir (newLibrary dir [])
        ⟨rfl, datsConsistent_of_nil env _ rfl⟩
        (fun t x hx ht =>
          ⟨scanStep_index_none_keep env t x d.url ht.2 (hnwall x hx) ht.1,
           scanStep_consistent env t x ht.2⟩)
      exact hall.1
  · intro hfc t hct
    exact scanStep_noop env t c hct hfc

/-- Sample dats for the ownership-scan witness: one writable, one
non-writable, and one candidate whose open fails. -/
def wDatOwn : Dat := ⟨11, true, "dat://own", ⟨"own", "dat://own", some "o", none, true⟩⟩

def wDatForeign : Dat :=
  ⟨12, false, "dat://foreign", ⟨"foreign", "dat://foreign", none, none, false⟩⟩

def wEnv6 : Env :=
  { resolveName := fun _ => none
  , freshDat := fun x =>
      if x = "c1" then some wDatOwn else if x = "c2" then some wDatForeign else none
  , readdir := ["c1", "c2", "c3"] }

theorem init_ownership_scan_witness :
    (alookup (init wEnv6 (newLibrary "L" [])).archives (JKey.str "c1")
        = some (createDatArchive wDatOwn)
      ∧ alookup (init wEnv6 (newLibrary "L" [])).index "dat://own"
        = some (mkLibraryRecord "L" wDatOwn.info))
    ∧ (alookup (init wEnv6 (newLibrary "L" [])).archives (JKey.str "c2") = none
      ∧ wDatForeign.id ∈ (init wEnv6 (newLibrary "L" [])).closedDats
      ∧ alookup (init wEnv6 (newLibrary "L" [])).index "dat://foreign" = none)
    ∧ (∀ t, DatsConsistent wEnv6 t →
        (scanStep wEnv6 t "c3").index = t.index
        ∧ (scanStep wEnv6 t "c3").archives = t.archives) := by
  have hurl6 : ∀ c1, c1 ∈ wEnv6.readdir → ∀ c2, c2 ∈ wEnv6.readdir → ∀ d1 d2,
      wEnv6.freshDat c1 = some d1 → wEnv6.freshDat c2 = some d2 →
      d1.url = d2.url → c1 = c2 := by
    intro c1 hc1 c2 hc2 d1 d2 h1 h2 hu
    simp only [wEnv6] at hc1 hc2
    fin_cases hc1 <;> fin_cases hc2 <;> simp_all [wEnv6, wDatOwn, wDatForeign] <;>
      (subst h1; subst h2; exact absurd hu (by decide))
  refine ⟨?_, ?_, ?_⟩
  · exact (init_ownership_scan wEnv6 "L" "c1" (by decide) hurl6).1 wDatOwn rfl rfl
  · exact (init_ownership_scan wEnv6 "L" "c2" (by decide) hurl6).2.1 wDatForeign rfl rfl
  · intro t hct
    obtain ⟨-, h2, h3, -, -, -⟩ :=
      (init_ownership_scan wEnv6 "L" "c3" (by decide) hurl6).2.2 rfl t hct
    exact ⟨h2, h3⟩

/-- Claim C7 counterexample: the record the metadata-capture routine
writes for a sample archive info has the field list dir, url, owner,
title, description, which differs from the record shape the spec states,
whose first field is named directory; no field named directory is written
at all. -/
theorem record_shape_counterexample :
    (mkLibraryRecord "L" ⟨"k1", "dat://k1", some "t1", none, true⟩).toObject.map Prod.fst
      ≠ specRecordFieldNames
    ∧ "directory" ∉
        (mkLibraryRecord "L"
          ⟨"k1", "dat://k1", some "t1", none, true⟩).toObject.map Prod.fst := by
  decide

/-- Claim C7 amended: every record written to the persisted index by the
metadata-capture routine used by the ownership scan, create and fork
paths has exactly the shape with fields dir (a string), url (a string),
owner (a boolean), title (a string or null) and description (a string or
null), in that order, and updateLibraryEntry keys the record externally
by the url of the archive handle. -/
theorem record_shape (dir : String) (info : ArchiveInfo) (s : LibState)
    (archive : Handle) :
    (mkLibraryRecord dir info).toObject.map Prod.fst
        = ["dir", "url", "owner", "title", "description"]
    ∧ ((mkLibraryRecord dir info).toObject.map (fun p => (p.2).kind)).take 3
        = [JKind.string, JKind.string, JKind.boolean]
    ∧ (((mkLibraryRecord dir info).toObject.map (fun p => p.2)).drop 3).all
        JVal.isStrOrNull = true
    ∧ (updateLibraryEntry s archive).index
        = aset s.index archive.url (mkLibraryRecord s.libraryDir archive.info) := by
  refine ⟨rfl, rfl, ?_, rfl⟩
  rcases info with ⟨k, u2, t, ds, o⟩
  cases t <;> cases ds <;> rfl

/-- Claim C8, evaluated at the failing input: createArchive for a fresh
archive with url dat://k1, whose resolution yields the canonical address
k1, stores the new handle in the cache under the JavaScript value
undefined instead of under the canonical address, because line 154
destructures a host property out of the resolved address string; the
lookup under the canonical address therefore misses. -/
theorem createArchive_key_not_address :
    (createArchive wEnv (newLibrary "L" []) (createDatArchive wDat1)).2.archives
      = [(JKey.undef, createDatArchive wDat1)]
    ∧ alookup (createArchive wEnv (newLibrary "L" [])
        (createDatArchive wDat1)).2.archives (JKey.str "k1") = none
    ∧ (createArchive wEnv (newLibrary "L" []) (createDatArchive wDat1)).1
      = Except.ok "dat://k1" :=
  ⟨rfl, rfl, rfl⟩

/-- Claim C9, evaluated at the failing input: two concurrent getArchive
calls for the previously-unseen url dat://k1, under the schedule in which
both cache-membership checks run before either construction completes,
issue two engine open calls, not one, while a single sequential call
issues exactly one. -/
theorem getArchive_race_two_opens :
    (getArchiveRacingPair wEnv (newLibrary "L" []) "dat://k1" 1 2).2.opens
      = ["k1", "k1"]
    ∧ ((getArchiveRacingPair wEnv (newLibrary "L" []) "dat://k1" 1 2).2.opens).length
      = 2
    ∧ (getArchive wEnv (newLibrary "L" []) "dat://k1" 1).2.opens = ["k1"] :=
  ⟨rfl, rfl, rfl⟩

/-- Claim C10: the usage map is written only by getArchive.  Startup
reconciliation, createArchive and forkArchive leave the usage map
unchanged, and forkArchive inserts nothing into the handle cache at all;
hence, when the usage map is empty, getOpenArchives reports lastUsed for
every cached handle as the JavaScript value undefined, modelled as none,
and the entry appears with the first successful getArchive call for the
address, which stamps the clock value of that call. -/
theorem usage_written_only_by_getArchive (env : Env) (s : LibState)
    (arch : Handle) (u : String) (t : Nat) :
    (init env s).archiveUsage = s.archiveUsage
    ∧ (createArchive env s arch).2.archiveUsage = s.archiveUsage
    ∧ (forkArchive env s u arch).2.archiveUsage = s.archiveUsage
    ∧ (forkArchive env s u arch).2.archives = s.archives
    ∧ (s.archiveUsage = [] → ∀ e ∈ getOpenArchives s, e.lastUsed = none)
    ∧ (∀ a h s1, env.resolveName u = some a →
        getArchive env s u t = (Except.ok h, s1) →
        alookup s1.archiveUsage (JKey.str a) = some t) := by
  have h1 : (init env s).archiveUsage = s.archiveUsage := by
    unfold init
    have hscan : (if (listLibrary s).isEmpty then checkOwned env s else s).archiveUsage
        = s.archiveUsage := by
      by_cases hb : (listLibrary s).isEmpty = true
      · rw [if_pos hb]
        unfold checkOwned
        exact foldl_invariant (scanStep env)
          (fun q => q.archiveUsage = s.archiveUsage) env.readdir s rfl
          (fun q x _ hq => ((scanStep_dir_usage env q x).2).trans hq)
      · rw [if_neg hb]
    exact foldl_invariant (loadStep env)
      (fun q => q.archiveUsage = s.archiveUsage) (listLibrary s) _ hscan
      (fun q x _ hq => ((loadStep_dir_usage env q x).2).trans hq)
  have h2 : (createArchive env s arch).2.archiveUsage = s.archiveUsage := by
    unfold createArchive
    cases hr : env.resolveName arch.url with
    | none => rfl
    | some rs => rfl
  have h34 : (forkArchive env s u arch).2.archiveUsage = s.archiveUsage
      ∧ (forkArchive env s u arch).2.archives = s.archives := by
    unfold forkArchive
    cases hr : env.resolveName u with
    | none => exact ⟨rfl, rfl⟩
    | some sa =>
      dsimp only
      cases hng : nodeGetDat env s sa with
      | mk rr s1 =>
        obtain ⟨-, -, f3, f4, -⟩ := nodeGetDat_fields env s sa
        rw [hng] at f3 f4
        cases rr with
        | none => exact ⟨f4, f3⟩
        | some dd => exact ⟨f4, f3⟩
  have h5 : s.archiveUsage = [] → ∀ e ∈ getOpenArchives s, e.lastUsed = none := by
    intro hu0 e he
    obtain ⟨p, -, -, hl⟩ := getOpenArchives_host s e he
    rw [hl, hu0]
    rfl
  have h6 : ∀ a h s1, env.resolveName u = some a →
      getArchive env s u t = (Except.ok h, s1) →
      alookup s1.archiveUsage (JKey.str a) = some t := by
    intro a h s1 hres hcall
    unfold getArchive at hcall
    simp only [hres] at hcall
    cases h0 : alookup s.archives (JKey.str a) with
    | some a0 =>
      simp only [h0] at hcall
      injection hcall with he hs
      subst hs
      exact alookup_aset_self _ _ _
    | none =>
      simp only [h0] at hcall
      cases hct : createTempArchive env s a with
      | mk r s' =>
        cases r with
        | none =>
          simp only [hct] at hcall
          injection hcall with he hs
          injection he
        | some aH =>
          simp only [hct] at hcall
          injection hcall with he hs
          subst hs
          exact alookup_aset_self _ _ _
  exact ⟨h1, h2, h34.1, h34.2, h5, h6⟩

/-- State with one cached handle and an empty usage map, as left by the
startup reconciler, for the usage-tracking witness. -/
def wS10 : LibState :=
  { libraryDir := "L"
  , index := []
  , archives := [(JKey.str "k1", createDatArchive wDat1)]
  , archiveUsage := []
  , dats := [("k1", wDat1)]
  , closedDats := []
  , opens := [] }

theorem usage_written_only_by_getArchive_witness :
    (init wEnv wS10).archiveUsage = wS10.archiveUsage
    ∧ (createArchive wEnv wS10 (createDatArchive wDat1)).2.archiveUsage
        = wS10.archiveUsage
    ∧ (forkArchive wEnv wS10 "dat://k1" (createDatArchive wDat1)).2.archiveUsage
        = wS10.archiveUsage
    ∧ (forkArchive wEnv wS10 "dat://k1" (createDatArchive wDat1)).2.archives
        = wS10.archives
    ∧ (∀ e ∈ getOpenArchives wS10, e.lastUsed = none)
    ∧ alookup (getArchive wEnv wS10 "dat://k1" 7).2.archiveUsage (JKey.str "k1")
        = some 7 := by
  obtain ⟨h1, h2, h3, h4, h5, h6⟩ :=
    usage_written_only_by_getArchive wEnv wS10 (createDatArchive wDat1) "dat://k1" 7
  exact ⟨h1, h2, h3, h4, h5 rfl, h6 "k1" (createDatArchive wDat1) _ rfl rfl⟩

end DatLib
